import Mathlib

/-
  Verification of the Kinetics repository (src/kinetics/Model.py and
  src/kinetics/Equations.py) against its natural-language specification.

  Conventions of the shallow embedding:
  * Python floats are modelled as rationals (ℚ).
  * Python dicts are modelled as association lists (`Dict α`) together with
    the operations `dict_lookup` (d[k]), `dict_update_entry` (d[k] = v,
    keeping the key's insertion position, appending new keys) and
    `dict_update` (d.update(e)).
  * Fallible Python operations (division, which raises ZeroDivisionError on
    ints and produces non-finite values on floats; list indexing, which
    raises IndexError; list.index, which raises ValueError) are modelled in
    the Option monad: `none` marks the run that raises or produces a
    non-finite value.
  * Python for-loops over lists become structural recursion in the same
    iteration order.
-/

namespace Kinetics

/-- A Python dict with string keys, as an association list in insertion order. -/
abbrev Dict (α : Type) := List (String × α)

/-- Python dict lookup `d[k]` restricted to the keys present: the first
(and, for a real Python dict, only) entry whose key is `k`. -/
def dict_lookup {α : Type} : Dict α → String → Option α
  | [], _ => none
  | (k0, v0) :: rest, k => if k0 = k then some v0 else dict_lookup rest k

/-- Python dict assignment `d[k] = v`: an existing key keeps its position and
gets the new value; a fresh key is appended at the end. -/
def dict_update_entry {α : Type} : Dict α → String → α → Dict α
  | [], k, v => [(k, v)]
  | (k0, v0) :: rest, k, v =>
      if k0 = k then (k, v) :: rest else (k0, v0) :: dict_update_entry rest k v

/-- Python `d.update(e)`: assign every entry of `e` into `d`, in the order of
`e`. -/
def dict_update {α : Type} (d e : Dict α) : Dict α :=
  e.foldl (fun acc p => dict_update_entry acc p.1 p.2) d

/- ------------------------------------------------------------------
   src/kinetics/Equations.py
   Every `/` of the source becomes `qdiv`, which records a division by
   zero (ZeroDivisionError / non-finite float) as `none`.
   ------------------------------------------------------------------ -/

/-- Division as performed by the Python source: `none` when the denominator
is zero (the run raises or produces a non-finite value), `some (x / y)`
otherwise. -/
def qdiv (x y : ℚ) : Option ℚ :=
  if y = 0 then none else some (x / y)

/-- Source `one_substrate_mm`: rate = kcat * enz * (a / (km_a + a)). -/
def one_substrate_mm (kcat km_a enz a : ℚ) : Option ℚ := do
  let t ← qdiv a (km_a + a)
  pure (kcat * enz * t)

/-- Source `bi_substrate_mm`: rate = (kcat * enz) * (a / (km_a + a)) * (b / (km_b + b)). -/
def bi_substrate_mm (kcat km_a km_b a b enz : ℚ) : Option ℚ := do
  let ta ← qdiv a (km_a + a)
  let tb ← qdiv b (km_b + b)
  pure (kcat * enz * ta * tb)

/-- Source `two_substrate_ordered_irreversible`:
num = kcat*enz*a*b, den = (kia*kmb) + (kmb*a) + (kma*b) + (a*b), rate = num/den. -/
def two_substrate_ordered_irreversible (kcat kma kmb kia enz a b : ℚ) : Option ℚ :=
  qdiv (kcat * enz * a * b) (kia * kmb + kmb * a + kma * b + a * b)

/-- Source `two_substrate_pingpong_irr`: rate = 0 when a == 0 or b == 0, otherwise
(kcat*enz*a*b) / ((kmb*a) + (kma*b) + (a*b)). -/
def two_substrate_pingpong_irr (kcat kma kmb enz a b : ℚ) : Option ℚ :=
  if a = 0 ∨ b = 0 then some 0
  else qdiv (kcat * enz * a * b) (kmb * a + kma * b + a * b)

/-- Source `three_substrate_irreversible_ter_ordered`:
rate = (kcat*enz*a*b*c) / ((kia*c) + (kmc*a*b) + (kmb*a*c) + (kma*b*c) + (a*b*c)). -/
def three_substrate_irreversible_ter_ordered (kcat kma kmb kia kmc enz a b c : ℚ) : Option ℚ :=
  qdiv (kcat * enz * a * b * c)
    (kia * c + kmc * a * b + kmb * a * c + kma * b * c + a * b * c)

/-- Source `two_substrate_ord_rev`:
numerator = ((enz*kcatf*a*b) / (kia*kmb)) - ((enz*kcatr*p*q) / (kmp*kiq));
denominator = 1 + (a/kia) + (b/kib) + (q/kiq) + (p/kip)
  + ((a*b)/(kia*kmb)) + ((p*q)/(kmp*kiq)); rate = numerator/denominator. -/
def two_substrate_ord_rev (kcatf kcatr kmb kia kib kmp kip kiq enz a b p q : ℚ) :
    Option ℚ := do
  let n1 ← qdiv (enz * kcatf * a * b) (kia * kmb)
  let n2 ← qdiv (enz * kcatr * p * q) (kmp * kiq)
  let d1 ← qdiv a kia
  let d2 ← qdiv b kib
  let d3 ← qdiv q kiq
  let d4 ← qdiv p kip
  let d5 ← qdiv (a * b) (kia * kmb)
  let d6 ← qdiv (p * q) (kmp * kiq)
  qdiv (n1 - n2) (1 + d1 + d2 + d3 + d4 + d5 + d6)

/-- Source `two_substrate_random_rev`:
num = ((kcatf*enz*a*b) / (kia*kmb)) - ((kcatr*enz*p*q) / (kmp*kiq));
dom = 1 + (a/kia) + (b/kib) + (p/kip) + (q/kiq)
  + ((a*b)/(kia*kmb)) + ((p*q)/(kmp*kiq)); rate = num/dom. -/
def two_substrate_random_rev (kcatf kcatr kmb kia kib kmp kip kiq enz a b p q : ℚ) :
    Option ℚ := do
  let n1 ← qdiv (kcatf * enz * a * b) (kia * kmb)
  let n2 ← qdiv (kcatr * enz * p * q) (kmp * kiq)
  let d1 ← qdiv a kia
  let d2 ← qdiv b kib
  let d3 ← qdiv p kip
  let d4 ← qdiv q kiq
  let d5 ← qdiv (a * b) (kia * kmb)
  let d6 ← qdiv (p * q) (kmp * kiq)
  qdiv (n1 - n2) (1 + d1 + d2 + d3 + d4 + d5 + d6)

/-- The numerator of `two_substrate_substituted_enzyme_rev` exactly as the
source writes it: `((kcatf*enz*a*b) / (kia*kmb)) - ((kcatr*enz*p*q) / kip*kmq)`.
By Python operator precedence (`*` and `/` associate left with equal
precedence), the second term is `((kcatr*enz*p*q) / kip) * kmq`. -/
def tsse_num (kcatf kcatr kmq kia kmb kip enz a b p q : ℚ) : Option ℚ := do
  let n1 ← qdiv (kcatf * enz * a * b) (kia * kmb)
  let n2 ← qdiv (kcatr * enz * p * q) kip
  pure (n1 - n2 * kmq)

/-- The same numerator as the specification claim reads it: the whole reverse
term `(kcatr*enz*p*q)` divided by the product `kip*kmq`.  Written from the
claim's words, to be compared with `tsse_num`, which is written from the
source. -/
def tsse_num_claimed (kcatf kcatr kmq kia kmb kip enz a b p q : ℚ) : Option ℚ := do
  let n1 ← qdiv (kcatf * enz * a * b) (kia * kmb)
  let n2 ← qdiv (kcatr * enz * p * q) (kip * kmq)
  pure (n1 - n2)

/-- Source `two_substrate_substituted_enzyme_rev`:
num as in `tsse_num`; den = (a/kia) + ((kma*b)/(kia*kmb)) + (p/kip)
  + ((kmp*q)/(kip*kmq)) + ((a*b)/(kia*kmb)) + ((a*p)/(kia*kip))
  + ((kma*b*q)/(kia*kmb*kiq)) + ((p*q)/(kip*kmq)); rate = num/den. -/
def two_substrate_substituted_enzyme_rev
    (kcatf kma kmb kia _kib kcatr kmp kmq kip kiq enz a b p q : ℚ) : Option ℚ := do
  let num ← tsse_num kcatf kcatr kmq kia kmb kip enz a b p q
  let d1 ← qdiv a kia
  let d2 ← qdiv (kma * b) (kia * kmb)
  let d3 ← qdiv p kip
  let d4 ← qdiv (kmp * q) (kip * kmq)
  let d5 ← qdiv (a * b) (kia * kmb)
  let d6 ← qdiv (a * p) (kia * kip)
  let d7 ← qdiv (kma * b * q) (kia * kmb * kiq)
  let d8 ← qdiv (p * q) (kip * kmq)
  qdiv num (d1 + d2 + d3 + d4 + d5 + d6 + d7 + d8)

/- ------------------------------------------------------------------
   src/kinetics/Model.py — value-level embedding.

   `Model` inherits from `list` in the source; the appended reaction
   classes are modelled by the field `reactions`.  A reaction class is
   duck-typed in the source: Model.py only requires a `reaction` method
   and the dictionaries `parameter_defaults` and `parameter_bounds`
   (the class itself lives outside src/).  The time-grid fields and the
   species-bounds registry play no part in the claims below and are
   omitted.
   ------------------------------------------------------------------ -/

/-- The duck-typed interface Model.py requires of an appended reaction
class: a `reaction(y, species_names, parameters)` method returning a
vector, plus parameter-default and parameter-bound dictionaries. -/
structure Reaction where
  reaction : List ℚ → List String → Dict ℚ → List ℚ
  parameter_defaults : Dict ℚ
  parameter_bounds : Dict (ℚ × ℚ)

/-- A Python value stored in the species dict: either a number or a list
(`get_species_positions` branches on `type(species[name]) == list`). -/
inductive SpecieValue where
  | num (v : ℚ)
  | list (vs : List ℚ)
deriving DecidableEq

/-- The Model state used by the claims: the appended reactions plus the
parameter registries and the run-time species lists. -/
structure Model where
  reactions : List Reaction
  species : Dict SpecieValue
  species_names : List String
  species_starting_values : List ℚ
  parameters : Dict ℚ
  parameter_defaults : Dict ℚ
  parameter_bounds : Dict (ℚ × ℚ)

/-- The loop body of `Model.set_parameters_from_reactions`: for each
reaction class, `self.parameters.update(reaction_class.parameter_defaults)`,
`self.parameter_defaults.update(copy.deepcopy(reaction_class.parameter_defaults))`
(a deep copy is the identity in a value-level model) and
`self.parameter_bounds.update(reaction_class.parameter_bounds)`. -/
def spfr_loop : Model → List Reaction → Model
  | m, [] => m
  | m, r :: rest =>
      spfr_loop
        { m with
          parameters := dict_update m.parameters r.parameter_defaults
          parameter_defaults := dict_update m.parameter_defaults r.parameter_defaults
          parameter_bounds := dict_update m.parameter_bounds r.parameter_bounds }
        rest

/-- Source `Model.set_parameters_from_reactions`: clears `self.parameters`,
`self.parameter_defaults` and `self.parameter_bounds`, then folds every
appended reaction class's dictionaries into them, in append order. -/
def set_parameters_from_reactions (m : Model) : Model :=
  spfr_loop
    { m with parameters := [], parameter_defaults := [], parameter_bounds := [] }
    m.reactions

/-- Numpy `yprime += arr` for two one-dimensional arrays: elementwise sum
when the lengths agree, an error (`none`) otherwise. -/
def vadd (xs ys : List ℚ) : Option (List ℚ) :=
  if xs.length = ys.length then some (List.zipWith (fun u v => u + v) xs ys) else none

/-- The loop of `Model.deriv`: `for reaction_class in self:
yprime += reaction_class.reaction(y, self.species_names, self.parameters)`. -/
def deriv_loop (y : List ℚ) (names : List String) (params : Dict ℚ) :
    List ℚ → List Reaction → Option (List ℚ)
  | yp, [] => some yp
  | yp, r :: rest =>
      match vadd yp (r.reaction y names params) with
      | none => none
      | some yp2 => deriv_loop y names params yp2 rest

/-- Source `Model.deriv(y, t)`: starts from `np.zeros(len(y))` and adds every
appended reaction's contribution in append order.  `t` is unused, as in the
source. -/
def deriv (m : Model) (y : List ℚ) (_t : ℚ) : Option (List ℚ) :=
  deriv_loop y m.species_names m.parameters (List.replicate y.length 0) m.reactions

/-- Modelled from the spec: the Model's parameter-bounds-check operation.
No such function exists under src/ (src/kinetics only holds Model.py and
Equations.py); the spec describes it as: given the flattened run-time
parameter map, verify every declared (low, high) bound is satisfied and
return an aggregate boolean — false whenever some parameter's value lies
outside its bounds, true when every parameter satisfies its bounds. -/
def check_parameter_bounds (m : Model) : Bool :=
  m.parameter_bounds.all fun kb =>
    match dict_lookup m.parameters kb.1 with
    | some v => decide (kb.2.1 ≤ v ∧ v ≤ kb.2.2)
    | none => true

/-- The value `get_species_positions` appends for one entry:
`species[name][0]` when the value is a list (IndexError — `none` — when the
list is empty), the value itself otherwise. -/
def specie_starting_value : SpecieValue → Option ℚ
  | SpecieValue.list vs => vs.head?
  | SpecieValue.num v => some v

/-- The loop of `get_species_positions`, accumulating the two lists. -/
def get_species_positions_loop (names : List String) (vals : List ℚ) :
    Dict SpecieValue → Option (List String × List ℚ)
  | [] => some (names, vals)
  | (n, v) :: rest =>
      match specie_starting_value v with
      | none => none
      | some x => get_species_positions_loop (names ++ [n]) (vals ++ [x]) rest

/-- Source `get_species_positions(species)`: walks the dict in insertion order and
returns the parallel lists of names and starting values. -/
def get_species_positions (species : Dict SpecieValue) : Option (List String × List ℚ) :=
  get_species_positions_loop [] [] species

/-- Python `substrate_names.index(name)`: position of the first occurrence,
ValueError (`none`) when absent. -/
def list_index : List String → String → Option Nat
  | [], _ => none
  | n0 :: rest, n => if n0 = n then some 0 else (list_index rest n).map (fun i => i + 1)

/-- Numpy element update `xs[i] = f xs[i]`: IndexError (`none`) when `i` is
out of range. -/
def modifyIdx : List ℚ → Nat → (ℚ → ℚ) → Option (List ℚ)
  | [], _, _ => none
  | x :: rest, 0, f => some (f x :: rest)
  | x :: rest, Nat.succ i, f => (modifyIdx rest i f).map (fun l => x :: l)

/-- One of the two loops of `calculate_yprime`:
`for name in names: y_prime[substrate_names.index(name)] = f(...)`. -/
def apply_rates (substrate_names : List String) (f : ℚ → ℚ) :
    List ℚ → List String → Option (List ℚ)
  | yp, [] => some yp
  | yp, name :: rest =>
      match list_index substrate_names name with
      | none => none
      | some i =>
          match modifyIdx yp i f with
          | none => none
          | some yp2 => apply_rates substrate_names f yp2 rest

/-- Source `calculate_yprime(y, rate, substrates, products, substrate_names)`:
starts from `np.zeros(len(y))`, subtracts `rate` at each substrate's index,
then adds `rate` at each product's index. -/
def calculate_yprime (y : List ℚ) (rate : ℚ)
    (substrates products substrate_names : List String) : Option (List ℚ) :=
  match apply_rates substrate_names (fun v => v - rate)
      (List.replicate y.length 0) substrates with
  | none => none
  | some y1 => apply_rates substrate_names (fun v => v + rate) y1 products

/- ------------------------------------------------------------------
   src/kinetics/Model.py — reference-level embedding of the parameter
   registries, for the reset protocol.

   `Model.reset_model` executes `self.parameters = self.parameter_defaults`:
   an assignment of the object reference, not a copy.  To express what that
   does across run cycles the two registries are modelled as references
   into an explicit heap of dicts.  (`self.species = self.species_defaults`
   on the species side has exactly the same shape.)
   ------------------------------------------------------------------ -/

/-- The parameter registries of a Model, with Python reference semantics:
`parameters` and `parameter_defaults` are references into `heap`. -/
structure PState where
  heap : List (Dict ℚ)
  parameters : Nat
  parameter_defaults : Nat

/-- Read the dict a reference points to. -/
def heap_read (h : List (Dict ℚ)) (r : Nat) : Dict ℚ :=
  (h.get? r).getD []

/-- Overwrite the dict a reference points to (in-place mutation of the
shared object). -/
def heap_write (h : List (Dict ℚ)) (r : Nat) (d : Dict ℚ) : List (Dict ℚ) :=
  h.set r d

/-- Source `Model.__init__`: `self.parameters = {}` and `self.parameter_defaults = {}`
allocate two distinct empty dicts. -/
def pstate_init : PState :=
  { heap := [[], []], parameters := 0, parameter_defaults := 1 }

/-- Source `Model.set_parameter_defaults(parameters)`:
`self.parameters = parameters` binds the caller's dict object;
`self.parameter_defaults = copy.deepcopy(parameters)` allocates a fresh
copy. -/
def set_parameter_defaults (s : PState) (d : Dict ℚ) : PState :=
  { heap := s.heap ++ [d] ++ [d]
    parameters := s.heap.length
    parameter_defaults := s.heap.length + 1 }

/-- Source `Model.update_parameters(parameters)`:
`self.parameters.update(parameters)` mutates the referenced dict in place. -/
def update_parameters (s : PState) (d : Dict ℚ) : PState :=
  { s with
    heap := heap_write s.heap s.parameters
      (dict_update (heap_read s.heap s.parameters) d) }

/-- Source `Model.reset_model` on the parameter side:
`self.parameters = self.parameter_defaults` — reference assignment, no
copy. -/
def reset_model (s : PState) : PState :=
  { s with parameters := s.parameter_defaults }

/- ------------------------------------------------------------------
   Helper lemmas about the dict operations.
   ------------------------------------------------------------------ -/

theorem dict_lookup_update_entry {α : Type} (d : Dict α) (k : String) (v : α)
    (k' : String) :
    dict_lookup (dict_update_entry d k v) k' =
      if k' = k then some v else dict_lookup d k' := by
  induction d with
  | nil =>
      rcases eq_or_ne k' k with h | h
      · subst h; simp [dict_update_entry, dict_lookup]
      · have h2 : k ≠ k' := fun h3 => h h3.symm
        simp [dict_update_entry, dict_lookup, h, h2]
  | cons p rest ih =>
      obtain ⟨k0, v0⟩ := p
      rcases eq_or_ne k0 k with h0 | h0
      · subst h0
        rcases eq_or_ne k' k0 with h | h
        · subst h; simp [dict_update_entry, dict_lookup]
        · have h2 : k0 ≠ k' := fun h3 => h h3.symm
          simp [dict_update_entry, dict_lookup, h, h2]
      · rcases eq_or_ne k' k with h | h
        · subst h
          have h2 : k0 ≠ k' := h0
          simp [dict_update_entry, dict_lookup, h0, h2, ih]
        · rcases eq_or_ne k0 k' with h1 | h1
          · subst h1
            simp [dict_update_entry, dict_lookup, h0, h, ih]
          · simp [dict_update_entry, dict_lookup, h0, h1, h, ih]

theorem dict_lookup_update {α : Type} (e d : Dict α) (k : String) :
    dict_lookup (dict_update d e) k =
      e.foldl (fun acc p => if p.1 = k then some p.2 else acc) (dict_lookup d k) := by
  induction e generalizing d with
  | nil => rfl
  | cons p rest ih =>
      show dict_lookup (dict_update (dict_update_entry d p.1 p.2) rest) k = _
      rw [ih, dict_lookup_update_entry, List.foldl_cons]
      congr 1
      rcases eq_or_ne p.1 k with h | h
      · simp [h]
      · have h2 : k ≠ p.1 := fun h3 => h h3.symm
        simp [h, h2]

/-- Looking a key up after folding a list of dicts into an accumulator dict:
the last dict declaring the key wins. -/
theorem dict_lookup_fold_update {α : Type} (ds : List (Dict α)) (init : Dict α)
    (k : String) :
    dict_lookup (ds.foldl (fun acc d => dict_update acc d) init) k =
      ds.foldl
        (fun acc d => d.foldl (fun acc2 p => if p.1 = k then some p.2 else acc2) acc)
        (dict_lookup init k) := by
  induction ds generalizing init with
  | nil => rfl
  | cons d rest ih =>
      show dict_lookup (rest.foldl _ (dict_update init d)) k = _
      rw [ih, dict_lookup_update, List.foldl_cons]

/-- The three dict-valued fields written by `spfr_loop` are folds of
`dict_update` over the reaction list; all other fields are untouched. -/
theorem spfr_loop_fields (rs : List Reaction) : ∀ m : Model,
    spfr_loop m rs =
      { m with
        parameters := rs.foldl (fun d r => dict_update d r.parameter_defaults) m.parameters
        parameter_defaults :=
          rs.foldl (fun d r => dict_update d r.parameter_defaults) m.parameter_defaults
        parameter_bounds :=
          rs.foldl (fun d r => dict_update d r.parameter_bounds) m.parameter_bounds } := by
  induction rs with
  | nil => intro m; rfl
  | cons r rest ih =>
      intro m
      show spfr_loop _ rest = _
      rw [ih]
      rfl

/- ------------------------------------------------------------------
   Claim theorems: C1, C3, C6, C7, C9, C10.
   ------------------------------------------------------------------ -/

/-- C1: the reset protocol leaks state across run cycles.  With defaults
set to p = 1, the first mutate-and-reset cycle restores p = 1 (first
conjunct), but `reset_model` aliases `self.parameters` to
`self.parameter_defaults` instead of copying, so the second cycle's
`update_parameters` to p = 3 mutates the shared defaults dict: after the
second reset the run-time parameters read p = 3 (second conjunct) and the
stored baseline itself has become p = 3 (third conjunct) — contradicting
both the claim and `reset_model`'s own docstring ("back to the original
default settings"). -/
theorem reset_model_defaults_leak :
    heap_read (reset_model (update_parameters
        (set_parameter_defaults pstate_init [("p", 1)]) [("p", 2)])).heap
      (reset_model (update_parameters
        (set_parameter_defaults pstate_init [("p", 1)]) [("p", 2)])).parameters
      = [("p", 1)] ∧
    heap_read (reset_model (update_parameters (reset_model (update_parameters
        (set_parameter_defaults pstate_init [("p", 1)]) [("p", 2)])) [("p", 3)])).heap
      (reset_model (update_parameters (reset_model (update_parameters
        (set_parameter_defaults pstate_init [("p", 1)]) [("p", 2)])) [("p", 3)])).parameters
      = [("p", 3)] ∧
    heap_read (reset_model (update_parameters (reset_model (update_parameters
        (set_parameter_defaults pstate_init [("p", 1)]) [("p", 2)])) [("p", 3)])).heap
      (reset_model (update_parameters (reset_model (update_parameters
        (set_parameter_defaults pstate_init [("p", 1)]) [("p", 2)])) [("p", 3)])).parameter_defaults
      = [("p", 3)] :=
  ⟨rfl, rfl, rfl⟩

/-- C3 (counterexample): at kcatf = kcatr = kia = kmb = kip = enz = a = b
= p = q = 1 and kmq = 2 (all kinetic constants nonzero), the source
numerator evaluates to -1 while the claim's reading — reverse term divided
by the product kip*kmq — gives 1/2: the two disagree, so the claim as
stated is false. -/
theorem tsse_num_not_divided_by_product :
    tsse_num 1 1 2 1 1 1 1 1 1 1 1 = some (-1) ∧
    tsse_num_claimed 1 1 2 1 1 1 1 1 1 1 1 = some (1 / 2) ∧
    tsse_num 1 1 2 1 1 1 1 1 1 1 1 ≠ tsse_num_claimed 1 1 2 1 1 1 1 1 1 1 1 := by
  refine ⟨?_, ?_, ?_⟩
  · norm_num [tsse_num, qdiv]
  · norm_num [tsse_num_claimed, qdiv]
  · norm_num [tsse_num, tsse_num_claimed, qdiv]

/-- C3 (amended): whenever kia*kmb and kip are nonzero, the numerator of
`two_substrate_substituted_enzyme_rev` is (kcatf*enz*a*b)/(kia*kmb) minus
((kcatr*enz*p*q)/kip)*kmq — by left-to-right operator precedence the
reverse term is divided by kip alone and then multiplied by kmq, not
divided by the product kip*kmq. -/
theorem tsse_num_precedence (kcatf kcatr kmq kia kmb kip enz a b p q : ℚ)
    (h1 : kia * kmb ≠ 0) (h2 : kip ≠ 0) :
    tsse_num kcatf kcatr kmq kia kmb kip enz a b p q
      = some (kcatf * enz * a * b / (kia * kmb) - kcatr * enz * p * q / kip * kmq) := by
  simp [tsse_num, qdiv, h1, h2]

/-- Witness for `tsse_num_precedence` at concrete inputs. -/
theorem tsse_num_precedence_witness :
    tsse_num 1 1 2 1 1 3 1 1 1 1 1
      = some (1 * 1 * 1 * 1 / (1 * 1) - 1 * 1 * 1 * 1 / 3 * 2) :=
  tsse_num_precedence 1 1 2 1 1 3 1 1 1 1 1 (by norm_num) (by norm_num)

/-- C6: the parameter-bounds check (modelled from the spec, absent from
src/) returns true exactly when every declared bound is satisfied by the
run-time value, and false exactly when some run-time parameter value lies
outside its declared (low, high) bounds. -/
theorem check_parameter_bounds_spec (m : Model) :
    (check_parameter_bounds m = true ↔
      ∀ kb ∈ m.parameter_bounds, ∀ v, dict_lookup m.parameters kb.1 = some v →
        kb.2.1 ≤ v ∧ v ≤ kb.2.2) ∧
    (check_parameter_bounds m = false ↔
      ∃ kb ∈ m.parameter_bounds, ∃ v, dict_lookup m.parameters kb.1 = some v ∧
        (v < kb.2.1 ∨ kb.2.2 < v)) := by
  have key : check_parameter_bounds m = true ↔
      ∀ kb ∈ m.parameter_bounds, ∀ v, dict_lookup m.parameters kb.1 = some v →
        kb.2.1 ≤ v ∧ v ≤ kb.2.2 := by
    rw [check_parameter_bounds, List.all_eq_true]
    constructor
    · intro h kb hkb v hv
      have h2 := h kb hkb
      rw [hv] at h2
      exact of_decide_eq_true h2
    · intro h kb hkb
      cases hl : dict_lookup m.parameters kb.1 with
      | none => rfl
      | some v => exact decide_eq_true (h kb hkb v hl)
  refine ⟨key, ?_⟩
  rw [Bool.eq_false_iff, Ne, key]
  push_neg
  constructor
  · rintro ⟨kb, hkb, v, hv, himp⟩
    refine ⟨kb, hkb, v, hv, ?_⟩
    rcases le_or_lt kb.2.1 v with h | h
    · exact Or.inr (himp h)
    · exact Or.inl h
  · rintro ⟨kb, hkb, v, hv, hor⟩
    refine ⟨kb, hkb, v, hv, ?_⟩
    intro hle
    rcases hor with h | h
    · exact absurd hle (not_le.mpr h)
    · exact h

/-- C7: with the appended reactions unchanged, running
`set_parameters_from_reactions` a second time reproduces exactly the
parameters, parameter_defaults and parameter_bounds dicts of the first run
(same keys, values and key order, since dicts are modelled in insertion
order). -/
theorem set_parameters_from_reactions_idempotent (m : Model) :
    (set_parameters_from_reactions (set_parameters_from_reactions m)).parameters
        = (set_parameters_from_reactions m).parameters ∧
    (set_parameters_from_reactions (set_parameters_from_reactions m)).parameter_defaults
        = (set_parameters_from_reactions m).parameter_defaults ∧
    (set_parameters_from_reactions (set_parameters_from_reactions m)).parameter_bounds
        = (set_parameters_from_reactions m).parameter_bounds := by
  simp [set_parameters_from_reactions, spfr_loop_fields]

/-- The value for key `k` after merging a list of dicts in order, later
entries overwriting earlier ones: the last declaration wins.  Spec-side
definition used to state the merge order of
`set_parameters_from_reactions`. -/
def lastDecl {α : Type} (ds : List (Dict α)) (k : String) : Option α :=
  ds.foldl
    (fun acc d => d.foldl (fun acc2 p => if p.1 = k then some p.2 else acc2) acc)
    none

/-- Folding a mapped family of dicts into an initially empty accumulator:
the lookup is the last declaration in order. -/
theorem dict_lookup_fold_update_map {α β : Type} (f : β → Dict α)
    (rs : List β) (k : String) :
    dict_lookup (rs.foldl (fun d r => dict_update d (f r)) []) k
      = lastDecl (rs.map f) k := by
  have h1 : rs.foldl (fun d r => dict_update d (f r)) []
      = (rs.map f).foldl (fun acc d => dict_update acc d) [] :=
    (List.foldl_map f _ _ _).symm
  rw [h1, dict_lookup_fold_update]
  rfl

/-- C10: after `set_parameters_from_reactions`, the value held for any key
in parameters, parameter_defaults and parameter_bounds is the one declared
by the last reaction (in append order) that declares that key: the
per-reaction dicts are merged in append order with later merges
overwriting earlier entries. -/
theorem set_parameters_from_reactions_last_wins (m : Model) (k : String) :
    dict_lookup (set_parameters_from_reactions m).parameters k
        = lastDecl (m.reactions.map (fun r => r.parameter_defaults)) k ∧
    dict_lookup (set_parameters_from_reactions m).parameter_defaults k
        = lastDecl (m.reactions.map (fun r => r.parameter_defaults)) k ∧
    dict_lookup (set_parameters_from_reactions m).parameter_bounds k
        = lastDecl (m.reactions.map (fun r => r.parameter_bounds)) k := by
  rw [set_parameters_from_reactions, spfr_loop_fields]
  exact ⟨dict_lookup_fold_update_map (fun r => r.parameter_defaults) m.reactions k,
         dict_lookup_fold_update_map (fun r => r.parameter_defaults) m.reactions k,
         dict_lookup_fold_update_map (fun r => r.parameter_bounds) m.reactions k⟩

/- ------------------------------------------------------------------
   Claims C9, C2 and C4.
   ------------------------------------------------------------------ -/

/-- The guard branch of the ping-pong law: either substrate at zero gives
rate 0 with no division evaluated. -/
theorem pingpong_guard_zero (kcat kma kmb enz a b : ℚ)
    (h : a = 0 ∨ b = 0) :
    two_substrate_pingpong_irr kcat kma kmb enz a b = some 0 := by
  rw [two_substrate_pingpong_irr, if_pos h]

/-- C9: with either substrate concentration exactly zero, the ping-pong
rate law takes its guard branch and returns exactly 0 — no division is
evaluated (no exception, no NaN), whatever the kinetic constants. -/
theorem two_substrate_pingpong_irr_zero (kcat kma kmb enz a b : ℚ)
    (h : a = 0 ∨ b = 0) :
    two_substrate_pingpong_irr kcat kma kmb enz a b = some 0 :=
  pingpong_guard_zero kcat kma kmb enz a b h

/-- Witness for `two_substrate_pingpong_irr_zero` at a = 0. -/
theorem two_substrate_pingpong_irr_zero_witness :
    two_substrate_pingpong_irr 1 2 3 4 0 5 = some 0 :=
  two_substrate_pingpong_irr_zero 1 2 3 4 0 5 (Or.inl rfl)

/-- The loop of `Model.deriv` computes the left fold of elementwise vector
addition over the reactions' contributions, provided every contribution has
the state vector's length. -/
theorem deriv_loop_foldl (y : List ℚ) (names : List String) (params : Dict ℚ) :
    ∀ (rs : List Reaction) (yp : List ℚ), yp.length = y.length →
    (∀ r ∈ rs, (r.reaction y names params).length = y.length) →
    deriv_loop y names params yp rs =
      some ((rs.map (fun r => r.reaction y names params)).foldl
        (fun acc v => List.zipWith (fun u w => u + w) acc v) yp) := by
  intro rs
  induction rs with
  | nil => intro yp _ _; rfl
  | cons r rest ih =>
      intro yp hlen h
      have hr : (r.reaction y names params).length = y.length :=
        h r (List.mem_cons_self r rest)
      have hv : vadd yp (r.reaction y names params)
          = some (List.zipWith (fun u w => u + w) yp (r.reaction y names params)) := by
        rw [vadd, if_pos (by rw [hlen, hr])]
      simp only [deriv_loop, hv]
      rw [ih _ (by simp [List.length_zipWith, hlen, hr])
        (fun r2 h2 => h r2 (List.mem_cons_of_mem r h2))]
      rfl

/-- C2: `Model.deriv(y, t)` equals the zero vector of length `len(y)` with
each appended reaction's contribution `reaction(y, species_names,
parameters)` added to it, summed as a left fold in the list's append
order (provided each contribution is a vector of the state's length, as
the Reaction contract requires — otherwise numpy's `+=` raises). -/
theorem deriv_sums_in_append_order (m : Model) (y : List ℚ) (t : ℚ)
    (h : ∀ r ∈ m.reactions,
      (r.reaction y m.species_names m.parameters).length = y.length) :
    deriv m y t =
      some ((m.reactions.map (fun r => r.reaction y m.species_names m.parameters)).foldl
        (fun acc v => List.zipWith (fun u w => u + w) acc v)
        (List.replicate y.length 0)) := by
  rw [deriv]
  exact deriv_loop_foldl y m.species_names m.parameters m.reactions _
    (List.length_replicate y.length 0) h

/-- A two-reaction model used to witness the deriv claim at concrete
inputs. -/
def m_ex : Model :=
  { reactions :=
      [ { reaction := fun _ _ _ => [1, 2]
          parameter_defaults := [("k1", 1)]
          parameter_bounds := [("k1", (0, 10))] }
      , { reaction := fun _ _ _ => [10, 20]
          parameter_defaults := [("k1", 5), ("k2", 2)]
          parameter_bounds := [] } ]
    species := [("A", SpecieValue.num 0), ("B", SpecieValue.num 0)]
    species_names := ["A", "B"]
    species_starting_values := [0, 0]
    parameters := []
    parameter_defaults := []
    parameter_bounds := [] }

/-- Witness for `deriv_sums_in_append_order` on the concrete two-reaction
model. -/
theorem deriv_sums_in_append_order_witness :
    deriv m_ex [0, 0] 0 =
      some ((m_ex.reactions.map (fun r => r.reaction [0, 0] m_ex.species_names m_ex.parameters)).foldl
        (fun acc v => List.zipWith (fun u w => u + w) acc v)
        (List.replicate ([0, 0] : List ℚ).length 0)) :=
  deriv_sums_in_append_order m_ex [0, 0] 0 (by
    intro r hr
    simp only [m_ex, List.mem_cons, List.not_mem_nil, or_false] at hr
    rcases hr with h | h <;> subst h <;> rfl)

/-- C4 (counterexample): with every kinetic constant and the enzyme
concentration equal to 1 (strictly positive), evaluating at all-zero
reactant concentrations makes the denominator of
`three_substrate_irreversible_ter_ordered` and of
`two_substrate_substituted_enzyme_rev` exactly zero: both runs divide by
zero (`none`) instead of returning a zero rate. -/
theorem zero_conc_division_by_zero :
    three_substrate_irreversible_ter_ordered 1 1 1 1 1 1 0 0 0 = none ∧
    two_substrate_substituted_enzyme_rev 1 1 1 1 1 1 1 1 1 1 1 0 0 0 0 = none := by
  constructor
  · norm_num [three_substrate_irreversible_ter_ordered, qdiv]
  · norm_num [two_substrate_substituted_enzyme_rev, tsse_num, qdiv]

theorem one_substrate_mm_zero (kcat km_a enz a : ℚ)
    (_h1 : 0 < kcat) (h2 : 0 < km_a) (_h3 : 0 < enz) (ha : a = 0) :
    one_substrate_mm kcat km_a enz a = some 0 := by
  have hd : km_a ≠ 0 := ne_of_gt h2
  subst ha
  simp [one_substrate_mm, qdiv, hd]

theorem bi_substrate_mm_zero (kcat km_a km_b a b enz : ℚ)
    (_h1 : 0 < kcat) (h2 : 0 < km_a) (h3 : 0 < km_b) (_h4 : 0 < enz)
    (ha : 0 ≤ a) (hb : 0 ≤ b) (hz : a = 0 ∨ b = 0) :
    bi_substrate_mm kcat km_a km_b a b enz = some 0 := by
  have hka : km_a ≠ 0 := ne_of_gt h2
  have hkb : km_b ≠ 0 := ne_of_gt h3
  have hda : km_a + a ≠ 0 := by positivity
  have hdb : km_b + b ≠ 0 := by positivity
  rcases hz with h | h <;> subst h <;>
    simp [bi_substrate_mm, qdiv, hka, hkb, hda, hdb]

theorem two_substrate_ordered_irreversible_zero (kcat kma kmb kia enz a b : ℚ)
    (_h1 : 0 < kcat) (h2 : 0 < kma) (h3 : 0 < kmb) (h4 : 0 < kia) (_h5 : 0 < enz)
    (ha : 0 ≤ a) (hb : 0 ≤ b) (hz : a = 0 ∨ b = 0) :
    two_substrate_ordered_irreversible kcat kma kmb kia enz a b = some 0 := by
  rcases hz with h | h <;> subst h
  · have hd : kia * kmb + kma * b ≠ 0 := by positivity
    simp [two_substrate_ordered_irreversible, qdiv, hd]
  · have hd : kia * kmb + kmb * a ≠ 0 := by positivity
    simp [two_substrate_ordered_irreversible, qdiv, hd]

theorem two_substrate_ord_rev_zero (kcatf kcatr kmb kia kib kmp kip kiq enz a b p q : ℚ)
    (h1 : 0 < kmb) (h2 : 0 < kia) (h3 : 0 < kib) (h4 : 0 < kmp) (h5 : 0 < kip)
    (h6 : 0 < kiq) (ha : 0 ≤ a) (hb : 0 ≤ b) (hp : 0 ≤ p) (hq : 0 ≤ q)
    (hsub : a = 0 ∨ b = 0) (hpro : p = 0 ∨ q = 0) :
    two_substrate_ord_rev kcatf kcatr kmb kia kib kmp kip kiq enz a b p q = some 0 := by
  have hab : kia * kmb ≠ 0 := by positivity
  have hpq : kmp * kiq ≠ 0 := by positivity
  have e2 : kia ≠ 0 := ne_of_gt h2
  have e3 : kib ≠ 0 := ne_of_gt h3
  have e5 : kip ≠ 0 := ne_of_gt h5
  have e6 : kiq ≠ 0 := ne_of_gt h6
  rcases hsub with h | h <;> rcases hpro with h2a | h2a <;> subst h <;> subst h2a
  · have hD : (1 : ℚ) + b / kib + q / kiq ≠ 0 := by positivity
    simp [two_substrate_ord_rev, qdiv, hab, hpq, e2, e3, e5, e6, hD]
  · have hD : (1 : ℚ) + b / kib + p / kip ≠ 0 := by positivity
    simp [two_substrate_ord_rev, qdiv, hab, hpq, e2, e3, e5, e6, hD]
  · have hD : (1 : ℚ) + a / kia + q / kiq ≠ 0 := by positivity
    simp [two_substrate_ord_rev, qdiv, hab, hpq, e2, e3, e5, e6, hD]
  · have hD : (1 : ℚ) + a / kia + p / kip ≠ 0 := by positivity
    simp [two_substrate_ord_rev, qdiv, hab, hpq, e2, e3, e5, e6, hD]

theorem two_substrate_random_rev_zero (kcatf kcatr kmb kia kib kmp kip kiq enz a b p q : ℚ)
    (h1 : 0 < kmb) (h2 : 0 < kia) (h3 : 0 < kib) (h4 : 0 < kmp) (h5 : 0 < kip)
    (h6 : 0 < kiq) (ha : 0 ≤ a) (hb : 0 ≤ b) (hp : 0 ≤ p) (hq : 0 ≤ q)
    (hsub : a = 0 ∨ b = 0) (hpro : p = 0 ∨ q = 0) :
    two_substrate_random_rev kcatf kcatr kmb kia kib kmp kip kiq enz a b p q = some 0 := by
  have hab : kia * kmb ≠ 0 := by positivity
  have hpq : kmp * kiq ≠ 0 := by positivity
  have e2 : kia ≠ 0 := ne_of_gt h2
  have e3 : kib ≠ 0 := ne_of_gt h3
  have e5 : kip ≠ 0 := ne_of_gt h5
  have e6 : kiq ≠ 0 := ne_of_gt h6
  rcases hsub with h | h <;> rcases hpro with h2a | h2a <;> subst h <;> subst h2a
  · have hD : (1 : ℚ) + b / kib + q / kiq ≠ 0 := by positivity
    simp [two_substrate_random_rev, qdiv, hab, hpq, e2, e3, e5, e6, hD]
  · have hD : (1 : ℚ) + b / kib + p / kip ≠ 0 := by positivity
    simp [two_substrate_random_rev, qdiv, hab, hpq, e2, e3, e5, e6, hD]
  · have hD : (1 : ℚ) + a / kia + q / kiq ≠ 0 := by positivity
    simp [two_substrate_random_rev, qdiv, hab, hpq, e2, e3, e5, e6, hD]
  · have hD : (1 : ℚ) + a / kia + p / kip ≠ 0 := by positivity
    simp [two_substrate_random_rev, qdiv, hab, hpq, e2, e3, e5, e6, hD]

/-- C4 (amended): with all kinetic constants and the enzyme concentration
strictly positive and reactant concentrations nonnegative, evaluating at
exactly-zero substrate (and, for reversible laws, product) concentrations
returns a zero rate with no division by zero for `one_substrate_mm`,
`bi_substrate_mm`, `two_substrate_ordered_irreversible`,
`two_substrate_pingpong_irr`, `two_substrate_ord_rev` and
`two_substrate_random_rev` — but not for every rate-law function:
`three_substrate_irreversible_ter_ordered` and
`two_substrate_substituted_enzyme_rev` reach a zero denominator there
(see the counterexample theorem). -/
theorem rate_laws_zero_conc_zero_rate :
    (∀ kcat km_a enz a : ℚ, 0 < kcat → 0 < km_a → 0 < enz → a = 0 →
      one_substrate_mm kcat km_a enz a = some 0) ∧
    (∀ kcat km_a km_b a b enz : ℚ, 0 < kcat → 0 < km_a → 0 < km_b → 0 < enz →
      0 ≤ a → 0 ≤ b → a = 0 ∨ b = 0 →
      bi_substrate_mm kcat km_a km_b a b enz = some 0) ∧
    (∀ kcat kma kmb kia enz a b : ℚ, 0 < kcat → 0 < kma → 0 < kmb → 0 < kia →
      0 < enz → 0 ≤ a → 0 ≤ b → a = 0 ∨ b = 0 →
      two_substrate_ordered_irreversible kcat kma kmb kia enz a b = some 0) ∧
    (∀ kcat kma kmb enz a b : ℚ, a = 0 ∨ b = 0 →
      two_substrate_pingpong_irr kcat kma kmb enz a b = some 0) ∧
    (∀ kcatf kcatr kmb kia kib kmp kip kiq enz a b p q : ℚ,
      0 < kmb → 0 < kia → 0 < kib → 0 < kmp → 0 < kip → 0 < kiq →
      0 ≤ a → 0 ≤ b → 0 ≤ p → 0 ≤ q → a = 0 ∨ b = 0 → p = 0 ∨ q = 0 →
      two_substrate_ord_rev kcatf kcatr kmb kia kib kmp kip kiq enz a b p q = some 0) ∧
    (∀ kcatf kcatr kmb kia kib kmp kip kiq enz a b p q : ℚ,
      0 < kmb → 0 < kia → 0 < kib → 0 < kmp → 0 < kip → 0 < kiq →
      0 ≤ a → 0 ≤ b → 0 ≤ p → 0 ≤ q → a = 0 ∨ b = 0 → p = 0 ∨ q = 0 →
      two_substrate_random_rev kcatf kcatr kmb kia kib kmp kip kiq enz a b p q = some 0) :=
  ⟨one_substrate_mm_zero, bi_substrate_mm_zero, two_substrate_ordered_irreversible_zero,
   pingpong_guard_zero, two_substrate_ord_rev_zero, two_substrate_random_rev_zero⟩

/-- Witness for `rate_laws_zero_conc_zero_rate` at concrete inputs. -/
theorem rate_laws_zero_conc_zero_rate_witness :
    one_substrate_mm 1 1 1 0 = some 0 ∧
    bi_substrate_mm 1 1 1 0 2 1 = some 0 ∧
    two_substrate_ordered_irreversible 1 1 1 1 1 0 2 = some 0 ∧
    two_substrate_pingpong_irr 1 1 1 1 0 2 = some 0 ∧
    two_substrate_ord_rev 1 1 1 1 1 1 1 1 1 0 2 0 3 = some 0 ∧
    two_substrate_random_rev 1 1 1 1 1 1 1 1 1 0 2 0 3 = some 0 :=
  ⟨rate_laws_zero_conc_zero_rate.1 1 1 1 0
      (by norm_num) (by norm_num) (by norm_num) rfl,
   rate_laws_zero_conc_zero_rate.2.1 1 1 1 0 2 1
      (by norm_num) (by norm_num) (by norm_num) (by norm_num) (by norm_num)
      (by norm_num) (Or.inl rfl),
   rate_laws_zero_conc_zero_rate.2.2.1 1 1 1 1 1 0 2
      (by norm_num) (by norm_num) (by norm_num) (by norm_num) (by norm_num)
      (by norm_num) (by norm_num) (Or.inl rfl),
   rate_laws_zero_conc_zero_rate.2.2.2.1 1 1 1 1 0 2 (Or.inl rfl),
   rate_laws_zero_conc_zero_rate.2.2.2.2.1 1 1 1 1 1 1 1 1 1 0 2 0 3
      (by norm_num) (by norm_num) (by norm_num) (by norm_num) (by norm_num)
      (by norm_num) (by norm_num) (by norm_num) (by norm_num) (by norm_num)
      (Or.inl rfl) (Or.inl rfl),
   rate_laws_zero_conc_zero_rate.2.2.2.2.2 1 1 1 1 1 1 1 1 1 0 2 0 3
      (by norm_num) (by norm_num) (by norm_num) (by norm_num) (by norm_num)
      (by norm_num) (by norm_num) (by norm_num) (by norm_num) (by norm_num)
      (Or.inl rfl) (Or.inl rfl)⟩

/- ------------------------------------------------------------------
   Claim C5: calculate_yprime.
   ------------------------------------------------------------------ -/

theorem get?_replicate_of_lt {α : Type} (x : α) :
    ∀ (n i : Nat), i < n → (List.replicate n x).get? i = some x := by
  intro n
  induction n with
  | zero => intro i h; omega
  | succ n ih =>
      intro i h
      cases i with
      | zero => rfl
      | succ i => exact ih i (Nat.lt_of_succ_lt_succ h)

theorem modifyIdx_spec (f : ℚ → ℚ) :
    ∀ (xs : List ℚ) (i : Nat), i < xs.length →
    ∃ ys, modifyIdx xs i f = some ys ∧ ys.length = xs.length ∧
      ∀ j, ys.get? j = if j = i then (xs.get? j).map f else xs.get? j := by
  intro xs
  induction xs with
  | nil => intro i h; simp at h
  | cons x rest ih =>
      intro i hi
      cases i with
      | zero =>
          refine ⟨f x :: rest, rfl, rfl, ?_⟩
          intro j
          cases j with
          | zero => rfl
          | succ j => simp
      | succ i =>
          have hi2 : i < rest.length := Nat.lt_of_succ_lt_succ hi
          obtain ⟨ys, h1, h2, h3⟩ := ih i hi2
          refine ⟨x :: ys, ?_, by simp [h2], ?_⟩
          · show (modifyIdx rest i f).map _ = _
            rw [h1]
            rfl
          · intro j
            cases j with
            | zero => simp
            | succ j => simpa using h3 j

theorem list_index_get (names : List String) (n : String) :
    ∀ i, list_index names n = some i → names.get? i = some n := by
  induction names with
  | nil => intro i h; cases h
  | cons n0 rest ih =>
      intro i h
      by_cases h0 : n0 = n
      · rw [list_index, if_pos h0] at h
        cases h
        simp [h0]
      · rw [list_index, if_neg h0] at h
        cases hrec : list_index rest n with
        | none => rw [hrec] at h; cases h
        | some j =>
            rw [hrec] at h
            cases h
            simpa using ih j hrec

/-- Distinct names have distinct first-occurrence indices. -/
theorem list_index_inj (names : List String) (n1 n2 : String) (i : Nat)
    (h1 : list_index names n1 = some i) (h2 : list_index names n2 = some i) :
    n1 = n2 := by
  have g1 := list_index_get names n1 i h1
  have g2 := list_index_get names n2 i h2
  rw [g1] at g2
  exact Option.some.inj g2

/-- One `apply_rates` loop succeeds under valid indices and leaves every
index not named by the list unchanged. -/
theorem apply_rates_frame (snames : List String) (f : ℚ → ℚ) :
    ∀ (names : List String) (yp : List ℚ),
    (∀ n ∈ names, ∃ i, list_index snames n = some i ∧ i < yp.length) →
    ∃ v, apply_rates snames f yp names = some v ∧ v.length = yp.length ∧
      ∀ j, (∀ n ∈ names, list_index snames n ≠ some j) → v.get? j = yp.get? j := by
  intro names
  induction names with
  | nil => intro yp _; exact ⟨yp, rfl, rfl, fun _ _ => rfl⟩
  | cons n rest ih =>
      intro yp h
      obtain ⟨i, hidx, hlt⟩ := h n (List.mem_cons_self n rest)
      obtain ⟨ys, hm, hlen, hget⟩ := modifyIdx_spec f yp i hlt
      have hrest : ∀ n2 ∈ rest, ∃ i2, list_index snames n2 = some i2 ∧ i2 < ys.length := by
        intro n2 hn2
        obtain ⟨i2, a1, a2⟩ := h n2 (List.mem_cons_of_mem n hn2)
        exact ⟨i2, a1, hlen ▸ a2⟩
      obtain ⟨v, hv, hvlen, hvget⟩ := ih ys hrest
      refine ⟨v, ?_, by rw [hvlen, hlen], ?_⟩
      · simp only [apply_rates, hidx, hm]
        exact hv
      · intro j hj
        have hne : list_index snames n ≠ some j := hj n (List.mem_cons_self n rest)
        have hij : j ≠ i := fun hji => hne (by rw [hidx, hji])
        rw [hvget j (fun n2 hn2 => hj n2 (List.mem_cons_of_mem n hn2)),
          hget j, if_neg hij]

/-- One `apply_rates` loop applies `f` exactly once at the index of each
listed name, when the names are distinct and their indices valid. -/
theorem apply_rates_hit (snames : List String) (f : ℚ → ℚ) :
    ∀ (names : List String) (yp : List ℚ) (s : String) (i : Nat),
    names.Nodup → s ∈ names → list_index snames s = some i →
    (∀ n ∈ names, ∃ i2, list_index snames n = some i2 ∧ i2 < yp.length) →
    ∀ v, apply_rates snames f yp names = some v →
      v.get? i = (yp.get? i).map f := by
  intro names
  induction names with
  | nil => intro yp s i _ hs; cases hs
  | cons n rest ih =>
      intro yp s i hnd hs hsi h v hv
      obtain ⟨i0, hidx0, hlt0⟩ := h n (List.mem_cons_self n rest)
      obtain ⟨ys, hm, hlen, hget⟩ := modifyIdx_spec f yp i0 hlt0
      simp only [apply_rates, hidx0, hm] at hv
      have hrest : ∀ n2 ∈ rest, ∃ i2, list_index snames n2 = some i2 ∧ i2 < ys.length := by
        intro n2 hn2
        obtain ⟨i2, a1, a2⟩ := h n2 (List.mem_cons_of_mem n hn2)
        exact ⟨i2, a1, hlen ▸ a2⟩
      rcases List.mem_cons.mp hs with hsn | hsr
      · subst hsn
        have hii : i0 = i := by
          rw [hidx0] at hsi
          exact Option.some.inj hsi
        subst hii
        have hfr : ∀ n2 ∈ rest, list_index snames n2 ≠ some i0 := by
          intro n2 hn2 hcon
          have heq : n2 = s := list_index_inj snames n2 s i0 hcon hidx0
          subst heq
          exact (List.nodup_cons.mp hnd).1 hn2
        obtain ⟨v2, hv2, _, hvget2⟩ := apply_rates_frame snames f rest ys hrest
        have hvv : v2 = v := Option.some.inj (hv2.symm.trans hv)
        subst hvv
        rw [hvget2 i0 hfr, hget i0, if_pos rfl]
      · have hns : n ≠ s := fun he => (List.nodup_cons.mp hnd).1 (he ▸ hsr)
        have hii : i0 ≠ i := fun he =>
          hns (list_index_inj snames n s i0 hidx0 (he ▸ hsi))
        have hres := ih ys s i (List.nodup_cons.mp hnd).2 hsr hsi hrest v hv
        rw [hres, hget i, if_neg (fun he => hii he.symm)]

/-- C5 (counterexample): with the empty state vector, rate 1, substrate
list consisting of the name a (distinct, and present in substrate_names),
the substrate's index 0 is out of range for `np.zeros(0)`: the update
raises IndexError (`none`), so no vector holding -rate at the substrate's
index is returned and the claim as stated fails. -/
theorem calculate_yprime_empty_vector :
    calculate_yprime [] 1 ["a"] [] ["a"] = none := rfl

/-- C5 (amended): when the substrate and product names are pairwise
distinct and each occurs in `substrate_names` at an index smaller than
`len(y)` (the out-of-range case raises, see the counterexample),
`calculate_yprime` returns a vector of length `len(y)` holding `-rate` at
each substrate's index, `+rate` at each product's index, and exactly zero
at every other index. -/
theorem calculate_yprime_spec (y : List ℚ) (rate : ℚ)
    (substrates products substrate_names : List String)
    (hnd : (substrates ++ products).Nodup)
    (h : ∀ n ∈ substrates ++ products,
      ∃ i, list_index substrate_names n = some i ∧ i < y.length) :
    ∃ v, calculate_yprime y rate substrates products substrate_names = some v ∧
      v.length = y.length ∧
      (∀ s ∈ substrates, ∀ i, list_index substrate_names s = some i →
        v.get? i = some (-rate)) ∧
      (∀ p ∈ products, ∀ i, list_index substrate_names p = some i →
        v.get? i = some rate) ∧
      (∀ j, j < y.length →
        (∀ n ∈ substrates ++ products, list_index substrate_names n ≠ some j) →
        v.get? j = some 0) := by
  have hy0len : (List.replicate y.length (0 : ℚ)).length = y.length :=
    List.length_replicate y.length 0
  have hsubval : ∀ n ∈ substrates, ∃ i, list_index substrate_names n = some i ∧
      i < (List.replicate y.length (0 : ℚ)).length := by
    intro n hn
    obtain ⟨i, a1, a2⟩ := h n (List.mem_append_left products hn)
    exact ⟨i, a1, by rw [hy0len]; exact a2⟩
  obtain ⟨y1, h1, h1len, h1frame⟩ :=
    apply_rates_frame substrate_names (fun v => v - rate) substrates
      (List.replicate y.length (0 : ℚ)) hsubval
  have hprodval : ∀ n ∈ products, ∃ i, list_index substrate_names n = some i ∧
      i < y1.length := by
    intro n hn
    obtain ⟨i, a1, a2⟩ := h n (List.mem_append_right substrates hn)
    exact ⟨i, a1, by rw [h1len, hy0len]; exact a2⟩
  obtain ⟨v, h2, h2len, h2frame⟩ :=
    apply_rates_frame substrate_names (fun v => v + rate) products y1 hprodval
  have hdisj : substrates.Disjoint products := List.disjoint_of_nodup_append hnd
  have hnds : substrates.Nodup := (List.nodup_append.mp hnd).1
  have hndp : products.Nodup := (List.nodup_append.mp hnd).2.1
  refine ⟨v, ?_, by rw [h2len, h1len, hy0len], ?_, ?_, ?_⟩
  · simp only [calculate_yprime, h1]
    exact h2
  · intro s hs i hsi
    have hi : i < y.length := by
      obtain ⟨i2, a1, a2⟩ := h s (List.mem_append_left products hs)
      rw [hsi] at a1
      exact (Option.some.inj a1) ▸ a2
    have hfr : ∀ n ∈ products, list_index substrate_names n ≠ some i := by
      intro n hn hcon
      have heq : n = s := list_index_inj substrate_names n s i hcon hsi
      subst heq
      exact hdisj hs hn
    have hhit := apply_rates_hit substrate_names (fun v => v - rate) substrates
      (List.replicate y.length (0 : ℚ)) s i hnds hs hsi hsubval y1 h1
    rw [h2frame i hfr, hhit, get?_replicate_of_lt 0 y.length i hi]
    simp
  · intro p hp i hpi
    have hi : i < y.length := by
      obtain ⟨i2, a1, a2⟩ := h p (List.mem_append_right substrates hp)
      rw [hpi] at a1
      exact (Option.some.inj a1) ▸ a2
    have hfr : ∀ n ∈ substrates, list_index substrate_names n ≠ some i := by
      intro n hn hcon
      have heq : n = p := list_index_inj substrate_names n p i hcon hpi
      subst heq
      exact hdisj hn hp
    have hhit := apply_rates_hit substrate_names (fun v => v + rate) products
      y1 p i hndp hp hpi hprodval v h2
    rw [hhit, h1frame i hfr, get?_replicate_of_lt 0 y.length i hi]
    simp
  · intro j hj hnone
    have hfrp : ∀ n ∈ products, list_index substrate_names n ≠ some j :=
      fun n hn => hnone n (List.mem_append_right substrates hn)
    have hfrs : ∀ n ∈ substrates, list_index substrate_names n ≠ some j :=
      fun n hn => hnone n (List.mem_append_left products hn)
    rw [h2frame j hfrp, h1frame j hfrs, get?_replicate_of_lt 0 y.length j hj]

/-- Witness for `calculate_yprime_spec` on a concrete three-species state. -/
theorem calculate_yprime_spec_witness :
    ∃ v, calculate_yprime [1, 2, 3] 5 ["A"] ["C"] ["A", "B", "C"] = some v ∧
      v.length = ([1, 2, 3] : List ℚ).length ∧
      (∀ s ∈ ["A"], ∀ i, list_index ["A", "B", "C"] s = some i →
        v.get? i = some (-5)) ∧
      (∀ p ∈ ["C"], ∀ i, list_index ["A", "B", "C"] p = some i →
        v.get? i = some 5) ∧
      (∀ j, j < ([1, 2, 3] : List ℚ).length →
        (∀ n ∈ ["A"] ++ ["C"], list_index ["A", "B", "C"] n ≠ some j) →
        v.get? j = some 0) :=
  calculate_yprime_spec [1, 2, 3] 5 ["A"] ["C"] ["A", "B", "C"]
    (by decide)
    (by
      intro n hn
      rcases List.mem_cons.mp hn with h | h
      · exact ⟨0, by rw [h]; rfl, by norm_num⟩
      · have hC : n = "C" := by
          rcases List.mem_cons.mp h with h2 | h2
          · exact h2
          · cases h2
        exact ⟨2, by rw [hC]; rfl, by norm_num⟩)

/- ------------------------------------------------------------------
   Claim C8: get_species_positions.
   ------------------------------------------------------------------ -/

/-- Helper for stating `get_species_positions`: the list of per-entry
starting values, `none` as soon as one entry has no first element. -/
def map_values : Dict SpecieValue → Option (List ℚ)
  | [] => some []
  | (_, v) :: rest =>
      match specie_starting_value v, map_values rest with
      | some x, some xs => some (x :: xs)
      | _, _ => none

theorem map_values_spec :
    ∀ species : Dict SpecieValue,
    (∀ nv ∈ species, ∃ x, specie_starting_value nv.2 = some x) →
    ∃ vs, map_values species = some vs ∧ vs.length = species.length ∧
      ∀ i, i < species.length → ∃ nv, species.get? i = some nv ∧
        vs.get? i = specie_starting_value nv.2 := by
  intro species
  induction species with
  | nil => intro _; exact ⟨[], rfl, rfl, fun i hi => by simp at hi⟩
  | cons nv rest ih =>
      intro h
      obtain ⟨x, hx⟩ := h nv (List.mem_cons_self nv rest)
      obtain ⟨xs, hxs, hlen, hcor⟩ :=
        ih (fun nv2 h2 => h nv2 (List.mem_cons_of_mem nv h2))
      refine ⟨x :: xs, ?_, by simp [hlen], ?_⟩
      · obtain ⟨n, v⟩ := nv
        simp only [map_values]
        rw [hx, hxs]
      · intro i hi
        cases i with
        | zero => exact ⟨nv, rfl, by simp [hx]⟩
        | succ i =>
            obtain ⟨nv2, a1, a2⟩ := hcor i (Nat.lt_of_succ_lt_succ hi)
            exact ⟨nv2, by simpa using a1, by simpa using a2⟩

theorem get_species_positions_loop_spec :
    ∀ (species : Dict SpecieValue) (names : List String) (vals vs : List ℚ),
    map_values species = some vs →
    get_species_positions_loop names vals species
      = some (names ++ species.map Prod.fst, vals ++ vs) := by
  intro species
  induction species with
  | nil =>
      intro names vals vs hm
      cases hm
      simp [get_species_positions_loop]
  | cons nv rest ih =>
      intro names vals vs hm
      obtain ⟨n, v⟩ := nv
      simp only [map_values] at hm
      cases hx : specie_starting_value v with
      | none => rw [hx] at hm; cases hm
      | some x =>
          rw [hx] at hm
          cases hxs : map_values rest with
          | none => rw [hxs] at hm; cases hm
          | some xs =>
              rw [hxs] at hm
              cases hm
              simp only [get_species_positions_loop, hx]
              rw [ih (names ++ [n]) (vals ++ [x]) xs hxs]
              simp

/-- C8 (counterexample): on the species dict mapping a to the empty list,
`species[name][0]` raises IndexError (`none`): no pair of lists is
returned, so the claim as stated over every species dictionary fails. -/
theorem get_species_positions_empty_list_value :
    get_species_positions [("a", SpecieValue.list [])] = none := rfl

/-- C8 (amended): for every species dictionary whose list values are
nonempty (an empty list raises, see the counterexample),
`get_species_positions` returns two lists of equal length whose i-th
entries are the i-th key in insertion order and that key's stored value
(the first element when the value is a list). -/
theorem get_species_positions_spec (species : Dict SpecieValue)
    (h : ∀ nv ∈ species, ∃ x, specie_starting_value nv.2 = some x) :
    ∃ names vals, get_species_positions species = some (names, vals) ∧
      names = species.map Prod.fst ∧ vals.length = species.length ∧
      ∀ i, i < species.length → ∃ nv, species.get? i = some nv ∧
        vals.get? i = specie_starting_value nv.2 := by
  obtain ⟨vs, hm, hlen, hcor⟩ := map_values_spec species h
  refine ⟨species.map Prod.fst, vs, ?_, rfl, hlen, hcor⟩
  have hl := get_species_positions_loop_spec species [] [] vs hm
  simpa [get_species_positions] using hl

/-- Witness for `get_species_positions_spec` on a concrete dict with a
numeric value and a list value. -/
theorem get_species_positions_spec_witness :
    ∃ names vals,
      get_species_positions
        [("a", SpecieValue.num 3), ("b", SpecieValue.list [5, 6])]
        = some (names, vals) ∧
      names = [("a", SpecieValue.num 3), ("b", SpecieValue.list [5, 6])].map Prod.fst ∧
      vals.length = [("a", SpecieValue.num 3), ("b", SpecieValue.list [5, 6])].length ∧
      ∀ i, i < [("a", SpecieValue.num 3), ("b", SpecieValue.list [5, 6])].length →
        ∃ nv, [("a", SpecieValue.num 3), ("b", SpecieValue.list [5, 6])].get? i = some nv ∧
          vals.get? i = specie_starting_value nv.2 :=
  get_species_positions_spec
    [("a", SpecieValue.num 3), ("b", SpecieValue.list [5, 6])]
    (by
      intro nv hnv
      rcases List.mem_cons.mp hnv with h | h
      · exact ⟨3, by rw [h]; rfl⟩
      · have hb : nv = ("b", SpecieValue.list [5, 6]) := by
          rcases List.mem_cons.mp h with h2 | h2
          · exact h2
          · cases h2
        exact ⟨5, by rw [hb]; rfl⟩)

end Kinetics
